import Mathlib

/-!
Shallow embedding of `diffcomps.py`, a comps-XML catalog diff tool.

Modelling conventions: Python dicts are association lists whose key order is
insertion order (Python dict keys are unique; theorems that depend on this
carry a `Nodup` hypothesis on the key column); Python sets are duplicate-free
lists in insertion order; Python-2 `sorted` is a stable insertion sort by a
key into a linearly ordered type that mirrors Python-2 comparison of the
element type (strings lexicographic, `None` below every string, tuples
lexicographic componentwise); code that can raise is modelled with `Except`.
-/

set_option maxHeartbeats 1000000
set_option synthInstance.maxSize 2000

/-- Association-list lookup, modelling Python dict indexing and `.get`. -/
def alookup {κ β : Type} [DecidableEq κ] : List (κ × β) → κ → Option β
  | [], _ => none
  | (k, v) :: rest, k0 => if k = k0 then some v else alookup rest k0

theorem alookup_eq_none {κ β : Type} [DecidableEq κ] {l : List (κ × β)} {k : κ} :
    alookup l k = none ↔ k ∉ l.map Prod.fst := by
  induction l with
  | nil => simp [alookup]
  | cons p rest ih =>
    obtain ⟨k0, v⟩ := p
    by_cases h : k0 = k
    · subst h
      simp [alookup]
    · simp [alookup, h, ih, Ne.symm h]

theorem alookup_mem {κ β : Type} [DecidableEq κ] {l : List (κ × β)} {k : κ} {v : β}
    (h : alookup l k = some v) : (k, v) ∈ l := by
  induction l with
  | nil => simp [alookup] at h
  | cons p rest ih =>
    obtain ⟨k0, v0⟩ := p
    by_cases hk : k0 = k
    · subst hk
      simp [alookup] at h
      simp [h]
    · simp [alookup, hk] at h
      simp [ih h]

theorem alookup_isSome_of_mem {κ β : Type} [DecidableEq κ] {l : List (κ × β)} {k : κ} {v : β}
    (h : (k, v) ∈ l) : (alookup l k).isSome := by
  induction l with
  | nil => simp at h
  | cons p rest ih =>
    obtain ⟨k0, v0⟩ := p
    by_cases hk : k0 = k
    · simp [alookup, hk]
    · rcases List.mem_cons.mp h with h0 | h0
      · exact absurd (congrArg Prod.fst h0).symm hk
      · simp [alookup, hk, ih h0]

theorem alookup_of_mem_nodup {κ β : Type} [DecidableEq κ] {l : List (κ × β)} {k : κ} {v : β}
    (hnd : (l.map Prod.fst).Nodup) (h : (k, v) ∈ l) : alookup l k = some v := by
  induction l with
  | nil => simp at h
  | cons p rest ih =>
    obtain ⟨k0, v0⟩ := p
    simp only [List.map_cons, List.nodup_cons] at hnd
    rcases List.mem_cons.mp h with h0 | h0
    · obtain ⟨hk, hv⟩ := Prod.mk.injEq .. ▸ h0.symm
      simp [alookup, hk.symm, hv.symm]
    · by_cases hk : k0 = k
      · subst hk
        exact absurd (List.mem_map_of_mem Prod.fst h0) hnd.1
      · simp [alookup, hk, ih hnd.2 h0]

theorem alookup_append_left {κ β : Type} [DecidableEq κ] {l l2 : List (κ × β)} {k : κ} {v : β}
    (h : alookup l k = some v) : alookup (l ++ l2) k = some v := by
  induction l with
  | nil => simp [alookup] at h
  | cons p rest ih =>
    obtain ⟨k0, v0⟩ := p
    by_cases hk : k0 = k
    · simp [alookup, hk] at h ⊢
      exact h
    · simp [alookup, hk] at h ⊢
      exact ih h

theorem alookup_append_right {κ β : Type} [DecidableEq κ] {l l2 : List (κ × β)} {k : κ}
    (h : alookup l k = none) : alookup (l ++ l2) k = alookup l2 k := by
  induction l with
  | nil => simp
  | cons p rest ih =>
    obtain ⟨k0, v0⟩ := p
    by_cases hk : k0 = k <;> simp [alookup, hk] at h ⊢
    exact ih h

theorem alookup_map_snd {κ β γ : Type} [DecidableEq κ] (F : κ → β → γ)
    (l : List (κ × β)) (k : κ) :
    alookup (l.map (fun p => (p.1, F p.1 p.2))) k = (alookup l k).map (F k) := by
  induction l with
  | nil => simp [alookup]
  | cons p rest ih =>
    obtain ⟨k0, v0⟩ := p
    by_cases hk : k0 = k <;> simp [alookup, hk, ih]

/-- The `Package` namedtuple of `diffcomps.py`; every field comes out of the
ElementTree interface (`package.text`, `package.get`) and may be absent. -/
structure Package where
  name : Option String
  requires : Option String
  type : Option String
  deriving DecidableEq

/-- One parsed entity: the per-node dict built by `_parse_node` and its
subclass overrides.  `names`/`descriptions` are the language-keyed text
dicts (the language tag may be `None`); `attrs` holds the recognized
attribute elements that were present (tag, element text); `members` is the
`packages` (groups) or `groups` (categories) key, set only when the
`packagelist`/`grouplist` element exists in the node. -/
structure NodeData (μ : Type) where
  names : List (Option String × Option String)
  descriptions : List (Option String × Option String)
  attrs : List (String × Option String)
  members : Option (List μ)
  deriving DecidableEq

/-- A package qualifying tuple of the reverse index: (owning group id,
requires, type). -/
abbrev Pkgtup := String × Option String × Option String

/-- Python-2 lexicographic comparison of character lists (strings compare
bytewise in Python 2; UTF-8 byte order agrees with codepoint order). -/
def charsLeb : List Char → List Char → Bool
  | [], _ => true
  | _ :: _, [] => false
  | c :: cs, d :: ds => if c = d then charsLeb cs ds else decide (c < d)

/-- Python-2 `<=` on strings: lexicographic. -/
def strLeb (a b : String) : Bool := charsLeb a.data b.data

/-- Python-2 `<=` on optional strings: `None` is below every string. -/
def optStrLeb : Option String → Option String → Bool
  | none, _ => true
  | some _, none => false
  | some a, some b => strLeb a b

/-- Python-2 lexicographic comparison of pairs, combining componentwise
comparators: compare the second components when the first are equal. -/
def lexLeb {α β : Type} [DecidableEq α] (la : α → α → Bool) (lb : β → β → Bool)
    (p q : α × β) : Bool :=
  if p.1 = q.1 then lb p.2 q.2 else la p.1 q.1

/-- Python-2 `<=` on package tuples: lexicographic componentwise, `None`
below every string in the optional components. -/
def pkgtupLeb : Pkgtup → Pkgtup → Bool :=
  lexLeb strLeb (lexLeb optStrLeb optStrLeb)

theorem charsLeb_total (a b : List Char) : charsLeb a b = true ∨ charsLeb b a = true := by
  induction a generalizing b with
  | nil => left; rfl
  | cons c cs ih =>
    cases b with
    | nil => right; rfl
    | cons d ds =>
      by_cases h : c = d
      · subst h
        simpa [charsLeb] using ih ds
      · rcases lt_or_gt_of_ne h with hlt | hgt
        · left; simp [charsLeb, h, hlt]
        · right; simp [charsLeb, Ne.symm h, hgt]

theorem charsLeb_trans {a b c : List Char} (h1 : charsLeb a b = true)
    (h2 : charsLeb b c = true) : charsLeb a c = true := by
  induction a generalizing b c with
  | nil => rfl
  | cons x xs ih =>
    cases b with
    | nil => simp [charsLeb] at h1
    | cons y ys =>
      cases c with
      | nil => simp [charsLeb] at h2
      | cons z zs =>
        by_cases hxy : x = y <;> by_cases hyz : y = z
        · subst hxy; subst hyz
          simp [charsLeb] at h1 h2 ⊢
          exact ih h1 h2
        · subst hxy
          simp [charsLeb, hyz] at h1 h2 ⊢
          simp [h2]
        · subst hyz
          simp [charsLeb, hxy] at h1 ⊢
          simp [h1]
        · simp [charsLeb, hxy, hyz] at h1 h2
          have hxz : x < z := lt_trans h1 h2
          simp [charsLeb, ne_of_lt hxz, hxz]

theorem charsLeb_antisymm {a b : List Char} (h1 : charsLeb a b = true)
    (h2 : charsLeb b a = true) : a = b := by
  induction a generalizing b with
  | nil =>
    cases b with
    | nil => rfl
    | cons d ds => simp [charsLeb] at h2
  | cons c cs ih =>
    cases b with
    | nil => simp [charsLeb] at h1
    | cons d ds =>
      by_cases h : c = d
      · subst h
        simp [charsLeb] at h1 h2
        simp [ih h1 h2]
      · simp [charsLeb, h, Ne.symm h] at h1 h2
        exact absurd h2 (not_lt_of_gt h1)

theorem strLeb_total (a b : String) : strLeb a b = true ∨ strLeb b a = true :=
  charsLeb_total a.data b.data

theorem strLeb_trans {a b c : String} (h1 : strLeb a b = true) (h2 : strLeb b c = true) :
    strLeb a c = true := charsLeb_trans h1 h2

theorem strLeb_antisymm {a b : String} (h1 : strLeb a b = true) (h2 : strLeb b a = true) :
    a = b := by
  cases a with
  | mk da =>
    cases b with
    | mk db => exact congrArg String.mk (charsLeb_antisymm h1 h2)

theorem optStrLeb_total (a b : Option String) :
    optStrLeb a b = true ∨ optStrLeb b a = true := by
  cases a <;> cases b <;> simp [optStrLeb]
  exact strLeb_total _ _

theorem optStrLeb_trans {a b c : Option String} (h1 : optStrLeb a b = true)
    (h2 : optStrLeb b c = true) : optStrLeb a c = true := by
  cases a <;> cases b <;> cases c <;> simp [optStrLeb] at h1 h2 ⊢
  exact strLeb_trans h1 h2

theorem optStrLeb_antisymm {a b : Option String} (h1 : optStrLeb a b = true)
    (h2 : optStrLeb b a = true) : a = b := by
  cases a <;> cases b <;> simp [optStrLeb] at h1 h2 ⊢
  exact strLeb_antisymm h1 h2

theorem lexLeb_total {α β : Type} [DecidableEq α] {la : α → α → Bool} {lb : β → β → Bool}
    (hta : ∀ x y, la x y = true ∨ la y x = true)
    (htb : ∀ x y, lb x y = true ∨ lb y x = true) (p q : α × β) :
    lexLeb la lb p q = true ∨ lexLeb la lb q p = true := by
  by_cases h : p.1 = q.1
  · simpa [lexLeb, h] using htb p.2 q.2
  · simpa [lexLeb, h, Ne.symm h] using hta p.1 q.1

theorem lexLeb_trans {α β : Type} [DecidableEq α] {la : α → α → Bool} {lb : β → β → Bool}
    (htra : ∀ x y z : α, la x y = true → la y z = true → la x z = true)
    (hana : ∀ x y : α, la x y = true → la y x = true → x = y)
    (htrb : ∀ x y z : β, lb x y = true → lb y z = true → lb x z = true)
    {p q r : α × β} (h1 : lexLeb la lb p q = true) (h2 : lexLeb la lb q r = true) :
    lexLeb la lb p r = true := by
  unfold lexLeb at h1 h2 ⊢
  by_cases hpq : p.1 = q.1 <;> by_cases hqr : q.1 = r.1
  · rw [if_pos hpq] at h1
    rw [if_pos hqr] at h2
    rw [if_pos (hpq.trans hqr)]
    exact htrb _ _ _ h1 h2
  · rw [if_pos hpq] at h1
    rw [if_neg hqr] at h2
    have hne : ¬p.1 = r.1 := hpq ▸ hqr
    rw [if_neg hne, hpq]
    exact h2
  · rw [if_neg hpq] at h1
    rw [if_pos hqr] at h2
    have hne : ¬p.1 = r.1 := hqr ▸ hpq
    rw [if_neg hne, ← hqr]
    exact h1
  · rw [if_neg hpq] at h1
    rw [if_neg hqr] at h2
    have hpr : la p.1 r.1 = true := htra _ _ _ h1 h2
    by_cases h : p.1 = r.1
    · rw [← h] at h2
      exact absurd (hana _ _ h1 h2) hpq
    · rw [if_neg h]
      exact hpr

theorem lexLeb_antisymm {α β : Type} [DecidableEq α] {la : α → α → Bool} {lb : β → β → Bool}
    (hana : ∀ x y : α, la x y = true → la y x = true → x = y)
    (hanb : ∀ x y : β, lb x y = true → lb y x = true → x = y)
    {p q : α × β} (h1 : lexLeb la lb p q = true) (h2 : lexLeb la lb q p = true) : p = q := by
  by_cases h : p.1 = q.1
  · simp [lexLeb, h] at h1 h2
    exact Prod.ext h (hanb _ _ h1 h2)
  · simp [lexLeb, h, Ne.symm h] at h1 h2
    exact absurd (hana _ _ h1 h2) h

theorem optPairLeb_trans {x y z : Option String × Option String}
    (h1 : lexLeb optStrLeb optStrLeb x y = true)
    (h2 : lexLeb optStrLeb optStrLeb y z = true) :
    lexLeb optStrLeb optStrLeb x z = true :=
  @lexLeb_trans (Option String) (Option String) _ optStrLeb optStrLeb
    (fun _ _ _ hu hv => optStrLeb_trans hu hv)
    (fun _ _ hu hv => optStrLeb_antisymm hu hv)
    (fun _ _ _ hu hv => optStrLeb_trans hu hv) x y z h1 h2

theorem optPairLeb_antisymm {x y : Option String × Option String}
    (h1 : lexLeb optStrLeb optStrLeb x y = true)
    (h2 : lexLeb optStrLeb optStrLeb y x = true) : x = y :=
  @lexLeb_antisymm (Option String) (Option String) _ optStrLeb optStrLeb
    (fun _ _ hu hv => optStrLeb_antisymm hu hv)
    (fun _ _ hu hv => optStrLeb_antisymm hu hv) x y h1 h2

theorem pkgtupLeb_total (p q : Pkgtup) : pkgtupLeb p q = true ∨ pkgtupLeb q p = true := by
  unfold pkgtupLeb
  exact @lexLeb_total String (Option String × Option String) _ strLeb
    (lexLeb optStrLeb optStrLeb) strLeb_total
    (@lexLeb_total (Option String) (Option String) _ optStrLeb optStrLeb
      optStrLeb_total optStrLeb_total) p q

theorem pkgtupLeb_trans {p q r : Pkgtup} (h1 : pkgtupLeb p q = true)
    (h2 : pkgtupLeb q r = true) : pkgtupLeb p r = true := by
  unfold pkgtupLeb at h1 h2 ⊢
  exact @lexLeb_trans String (Option String × Option String) _ strLeb
    (lexLeb optStrLeb optStrLeb)
    (fun _ _ _ hx hy => strLeb_trans hx hy)
    (fun _ _ hx hy => strLeb_antisymm hx hy)
    (fun _ _ _ hx hy => optPairLeb_trans hx hy) p q r h1 h2

theorem pkgtupLeb_antisymm {p q : Pkgtup} (h1 : pkgtupLeb p q = true)
    (h2 : pkgtupLeb q p = true) : p = q := by
  unfold pkgtupLeb at h1 h2
  exact @lexLeb_antisymm String (Option String × Option String) _ strLeb
    (lexLeb optStrLeb optStrLeb)
    (fun _ _ hx hy => strLeb_antisymm hx hy)
    (fun _ _ hx hy => optPairLeb_antisymm hx hy) p q h1 h2

/-- Python `sorted`, modelled as a stable insertion sort by a boolean
comparator that mirrors Python-2 comparison of the element type. -/
def pySort {α : Type} (leb : α → α → Bool) (l : List α) : List α :=
  l.insertionSort (fun a b => leb a b = true)

theorem pySort_sorted {α : Type} (leb : α → α → Bool)
    (htot : ∀ a b, leb a b = true ∨ leb b a = true)
    (htr : ∀ {a b c}, leb a b = true → leb b c = true → leb a c = true) (l : List α) :
    (pySort leb l).Sorted (fun a b => leb a b = true) := by
  haveI : IsTotal α (fun a b => leb a b = true) := ⟨htot⟩
  haveI : IsTrans α (fun a b => leb a b = true) := ⟨fun _ _ _ hab hbc => htr hab hbc⟩
  exact List.sorted_insertionSort _ l

theorem pySort_perm {α : Type} (leb : α → α → Bool) (l : List α) :
    (pySort leb l).Perm l := List.perm_insertionSort _ l

theorem pySort_congr {α : Type} {leb : α → α → Bool}
    (htot : ∀ a b, leb a b = true ∨ leb b a = true)
    (htr : ∀ {a b c}, leb a b = true → leb b c = true → leb a c = true)
    (han : ∀ {a b}, leb a b = true → leb b a = true → a = b)
    {l1 l2 : List α} (h : l1.Perm l2) : pySort leb l1 = pySort leb l2 := by
  haveI : IsAntisymm α (fun a b => leb a b = true) := ⟨fun _ _ hab hba => han hab hba⟩
  exact List.eq_of_perm_of_sorted
    (((pySort_perm leb l1).trans h).trans (pySort_perm leb l2).symm)
    (pySort_sorted leb htot htr l1) (pySort_sorted leb htot htr l2)

/-- Python `set.add` on a `defaultdict(set)`: sets as duplicate-free lists in
insertion order, a missing key starts from the empty set. -/
def ddAdd {κ α : Type} [DecidableEq κ] [DecidableEq α]
    (m : List (κ × List α)) (k : κ) (x : α) : List (κ × List α) :=
  match m with
  | [] => [(k, [x])]
  | (k0, s) :: rest =>
    if k0 = k then (k0, if x ∈ s then s else s ++ [x]) :: rest
    else (k0, s) :: ddAdd rest k x

/-- Python `==` on set-valued dict entries: equality of list-represented sets
is mutual containment. -/
def listSetEq {α : Type} [DecidableEq α] (s t : List α) : Bool :=
  decide (∀ x ∈ s, x ∈ t) && decide (∀ x ∈ t, x ∈ s)

/-- The reverse-index property `Groups.packages`: member key = package name,
qualifying tuple = (owning group id, requires, type).  For every group it
evaluates `self[group_id]["packages"]`, which raises `KeyError` when the
group node had no `packagelist` element, because `_parse_node` only sets
that key when the element exists; the raise is modelled as `Except.error`. -/
def Groups.packages (self : List (String × NodeData Package)) :
    Except String (List (Option String × List Pkgtup)) :=
  self.foldlM (fun acc gp =>
    match gp.2.members with
    | none => Except.error "KeyError: packages"
    | some packages =>
      Except.ok (packages.foldl (fun a p => ddAdd a p.name (gp.1, p.requires, p.type)) acc)) []

/-- The reverse-index property `Categories.groups`: member key = group id (a
raw `groupid` element text), qualifying tuple = owning category id, a plain
string.  Raises `KeyError` when a category node had no `grouplist` element. -/
def Categories.groups (self : List (String × NodeData (Option String))) :
    Except String (List (Option String × List String)) :=
  self.foldlM (fun acc cp =>
    match cp.2.members with
    | none => Except.error "KeyError: groups"
    | some groups =>
      Except.ok (groups.foldl (fun a g => ddAdd a g cp.1) acc)) []

/-- One tagged fact appended by `diff_list` for a member key. -/
inductive MemberFact (α β : Type) where
  | new (l : List α)
  | removed (l : List β)
  deriving DecidableEq

/-- The facts the source loop of `diff_list` appends for one member key:
`removed` with the primary keys (`itemgetter(0)` of each tuple) when the
member is absent from target, nothing when the tuple sets are equal, and
otherwise `new` with the sorted added tuples and/or `removed` with the
sorted primary keys of the dropped tuples, each only when non-empty. -/
def memberFacts {κ α β : Type} [DecidableEq κ] [DecidableEq α]
    (item0 : α → β) (lebA : α → α → Bool) (lebB : β → β → Bool)
    (target : List (κ × List α)) (item : κ) (groups : List α) : List (MemberFact α β) :=
  match alookup target item with
  | none => [MemberFact.removed (pySort lebB (groups.map item0))]
  | some target_groups =>
    if listSetEq groups target_groups then []
    else
      let additions := target_groups.filter (fun x => decide (x ∉ groups))
      let removals := groups.filter (fun x => decide (x ∉ target_groups))
      (if additions.isEmpty then [] else [MemberFact.new (pySort lebA additions)]) ++
      (if removals.isEmpty then [] else
        [MemberFact.removed (pySort lebB (removals.map item0))])

/-- The membership diff `diff_list(source, target)`.  `item0` models Python
`itemgetter(0)` at the concrete element type of the tuple sets (the first
component of a 3-tuple, the first character of a plain string); `lebA` and
`lebB` model Python comparison of the sorted element types.  The output maps
each member key to the list of facts appended for it: the whole target loop
(members absent from source) runs first, then the source loop, exactly as a
`defaultdict(list)` records appends — a key with no append does not appear. -/
def diff_list {κ α β : Type} [DecidableEq κ] [DecidableEq α]
    (item0 : α → β) (lebA : α → α → Bool) (lebB : β → β → Bool)
    (source target : List (κ × List α)) : List (κ × List (MemberFact α β)) :=
  let part1 := target.filterMap (fun it =>
    if (alookup source it.1).isNone then
      some (it.1, [MemberFact.new (pySort lebA it.2)])
    else none)
  let part2 := source.filterMap (fun it =>
    let facts := memberFacts item0 lebA lebB target it.1 it.2
    if facts.isEmpty then none else some (it.1, facts))
  part1 ++ part2

/-- The packagelist membership diff `diff_list(source_groups.packages,
target_groups.packages)`: elements are package tuples, so `itemgetter(0)`
yields the owning group id. -/
def diffPackagelist (source target : List (Option String × List Pkgtup)) :
    List (Option String × List (MemberFact Pkgtup String)) :=
  diff_list (fun t => t.1) pkgtupLeb strLeb source target

/-- The grouplist membership diff `diff_list(source_categories.groups,
target_categories.groups)`: elements are plain category-id strings, so
Python `itemgetter(0)` yields the FIRST CHARACTER of the id as a
one-character string (on an empty id CPython raises `IndexError`; `take 1`
yields the empty string there, a divergence no claim touches). -/
def diffGrouplist (source target : List (Option String × List String)) :
    List (Option String × List (MemberFact String String)) :=
  diff_list (fun s => s.take 1) strLeb strLeb source target

/-- Python `node_data.get(attr)` for a recognized attribute: `None` both when
the attribute element was absent and when it was present with empty text
(Python stores `element.text`, which may itself be `None`). -/
def getAttr {μ : Type} (d : NodeData μ) (a : String) : Option String :=
  (alookup d.attrs a).join

/-- The attribute loop of `diff_comps`: each recognized attribute whose
source and target values differ is mapped to the target value. -/
def attrDiff {μ : Type} (attributes : List String) (sd td : NodeData μ) :
    List (String × Option String) :=
  attributes.filterMap (fun a =>
    if getAttr sd a ≠ getAttr td a then some (a, getAttr td a) else none)

/-- The nested `diff_dicts` of `diff_comps`: additions = target keys absent
from source (with their target value), removals = source keys absent from
target, changes = keys in both whose values differ (with both values). -/
def diff_dicts (source_dict target_dict : List (Option String × Option String)) :
    List (Option String × Option String) × List (Option String) ×
      List (Option String × Option String × Option String) :=
  let additions := target_dict.filterMap (fun kv =>
    if (alookup source_dict kv.1).isNone then some kv else none)
  let removals := source_dict.filterMap (fun kv =>
    if (alookup target_dict kv.1).isNone then some kv.1 else none)
  let changes := source_dict.filterMap (fun kv =>
    match alookup target_dict kv.1 with
    | none => none
    | some tv => if kv.2 ≠ tv then some (kv.1, kv.2, tv) else none)
  (additions, removals, changes)

/-- One tagged fact appended by `diff_comps` for an entity id. -/
inductive EntityFact where
  | new
  | removed
  | attrs (m : List (String × Option String))
  | textdiff (tag : String) (newKeys : List (Option String)) (removedKeys : List (Option String))
  deriving DecidableEq

/-- The fact appended for one of the `names`/`descriptions` text maps:
`new = sorted(map(itemgetter(0), additions | changes))` and
`removed = sorted(removals)`.  The Python set union of additions (2-tuples)
and changes (3-tuples) is a disjoint union, and for dict inputs (unique
keys) neither side repeats a key, so it is modelled as list append. -/
def textFact (tag : String) (sd td : List (Option String × Option String)) : EntityFact :=
  let dd := diff_dicts sd td
  EntityFact.textdiff tag
    (pySort optStrLeb (dd.1.map Prod.fst ++ dd.2.2.map (fun c => c.1)))
    (pySort optStrLeb dd.2.1)

/-- The facts the source loop of `diff_comps` appends for one source id:
`removed` when the id is absent from target, otherwise the record
`[attr_dict, names fact, descriptions fact]` (the attribute map is appended
even when empty). -/
def entityRecord {μ : Type} (target : List (String × NodeData μ))
    (attributes : List String) (nid : String) (sd : NodeData μ) : List EntityFact :=
  match alookup target nid with
  | none => [EntityFact.removed]
  | some td =>
    [EntityFact.attrs (attrDiff attributes sd td),
     textFact "names" sd.names td.names,
     textFact "descriptions" sd.descriptions td.descriptions]

/-- The entity diff `diff_comps(source, target, attributes)`: the target loop
appends `new` for ids absent from source, then the source loop appends its
record for every source id. -/
def diff_comps {μ : Type} (source target : List (String × NodeData μ))
    (attributes : List String) : List (String × List EntityFact) :=
  let part1 := target.filterMap (fun it =>
    if (alookup source it.1).isNone then some (it.1, [EntityFact.new]) else none)
  let part2 := source.map (fun it => (it.1, entityRecord target attributes it.1 it.2))
  part1 ++ part2

/-- One raw XML entity node as read through the ElementTree interface: the
id element text (assumed present; a node without an id is outside the
claims), the `name`/`description` occurrences in document order as
(language attribute, text) pairs, the scalar child elements found by tag,
and the membership list, present exactly when the node has a
`packagelist`/`grouplist` element. -/
structure RawNode (μ : Type) where
  id : String
  names : List (Option String × Option String)
  descriptions : List (Option String × Option String)
  attrEls : List (String × Option String)
  memberlist : Option (List μ)
  deriving DecidableEq

/-- The duplicate-checked construction of a `names`/`descriptions` dict in
`_parse_node`: per occurrence, `assert lang not in names` then
`names[lang] = text`. -/
def buildTextMap (entries : List (Option String × Option String)) :
    Except String (List (Option String × Option String)) :=
  entries.foldlM (fun acc kv =>
    if (alookup acc kv.1).isSome then Except.error "AssertionError: duplicate language"
    else Except.ok (acc ++ [kv])) []

/-- The recognized-attribute extraction of the `_parse_node` overrides: for
each tag of the kind-specific `ATTRS` allow-list, record the element text
when the element exists. -/
def parseAttrs (ATTRS : List String) (els : List (String × Option String)) :
    List (String × Option String) :=
  ATTRS.filterMap (fun tag => (alookup els tag).map (fun txt => (tag, txt)))

/-- The per-node parse `_parse_node`: builds the two text maps (failing on a
duplicate language tag), extracts the recognized attributes, and copies the
optional membership list. -/
def parseNode {μ : Type} (ATTRS : List String) (n : RawNode μ) :
    Except String (NodeData μ) := do
  let names ← buildTextMap n.names
  let descriptions ← buildTextMap n.descriptions
  Except.ok { names := names, descriptions := descriptions,
              attrs := parseAttrs ATTRS n.attrEls, members := n.memberlist }

/-- The catalog construction loop `Comps._parse`: parse each node of the
requested tag in document order, then `assert node_id not in self` before
inserting — a duplicate id is a fatal error. -/
def parseComps {μ : Type} (ATTRS : List String) (acc : List (String × NodeData μ)) :
    List (RawNode μ) → Except String (List (String × NodeData μ))
  | [] => Except.ok acc
  | n :: rest =>
    match parseNode ATTRS n with
    | Except.error e => Except.error e
    | Except.ok d =>
      if (alookup acc n.id).isSome then Except.error "AssertionError: duplicate id"
      else parseComps ATTRS (acc ++ [(n.id, d)]) rest

instance {ε α : Type} [DecidableEq ε] [DecidableEq α] : DecidableEq (Except ε α) := fun x y =>
  match x, y with
  | Except.error e1, Except.error e2 => decidable_of_iff (e1 = e2) (by simp)
  | Except.error _, Except.ok _ => isFalse (fun h => Except.noConfusion h)
  | Except.ok _, Except.error _ => isFalse (fun h => Except.noConfusion h)
  | Except.ok a1, Except.ok a2 => decidable_of_iff (a1 = a2) (by simp)

/-- C1: FALSE of the code.  For the category-to-group reverse index the
qualifying tuples are plain category-id strings, and the claim says the
removed entries are those full id strings.  But `diff_list` reports removals
through `map(itemgetter(0), ...)`, and `itemgetter(0)` on a string yields
its first character: a category `cat1` owning group `g1` only in source
produces `removed = ["c"]`, not `["cat1"]`. -/
theorem c1_grouplist_removal_truncates_ids :
    Categories.groups
        [("cat1", { names := [], descriptions := [], attrs := [], members := some [some "g1"] })]
      = Except.ok [(some "g1", ["cat1"])]
    ∧ diffGrouplist [(some "g1", ["cat1"])] []
      = [(some "g1", [MemberFact.removed ["c"]])]
    ∧ ["c"] ≠ ["cat1"] := by
  refine ⟨by decide, by decide, by decide⟩

/-- C2: FALSE of the code.  A group node with no `packagelist` element (and a
category with no `grouplist`) gets no `packages`/`groups` key from
`_parse_node`, so the reverse-index properties `Groups.packages` and
`Categories.groups` raise `KeyError` on such a catalog instead of treating
the membership as empty; the whole diff run aborts. -/
theorem c2_missing_packagelist_raises :
    Groups.packages [("g1", { names := [], descriptions := [], attrs := [], members := none })]
      = Except.error "KeyError: packages"
    ∧ Categories.groups
        [("c1", { names := [], descriptions := [], attrs := [], members := none })]
      = Except.error "KeyError: groups" := by
  refine ⟨by decide, by decide⟩

/-- C10: removal primary-key lists are projections of the removed tuple set
and are not deduplicated: a member whose removed source tuples are two
distinct package tuples under the same owning group yields that group id
twice in the `removed` list. -/
theorem c10_removed_list_not_deduplicated :
    diffPackagelist
        [(some "vim", [("g1", none, some "mandatory"), ("g1", none, some "default")])] []
      = [(some "vim", [MemberFact.removed ["g1", "g1"]])] := by decide

/-- C3: a package present in both reverse indexes under the same owning
group whose `requires`/`type` qualifier differs is reported as simultaneous
removal-and-addition: the member's facts are exactly `new` with the full
target tuple and `removed` with the owning group id, never an in-place
update; tuple equality is exact match on all three components. -/
theorem c3_qualifier_change_is_remove_plus_add (m : Option String) (g : String)
    (r1 k1 r2 k2 : Option String) (h : (r1, k1) ≠ (r2, k2)) :
    diffPackagelist [(m, [(g, r1, k1)])] [(m, [(g, r2, k2)])]
      = [(m, [MemberFact.new [(g, r2, k2)], MemberFact.removed [g]])] := by
  have hne : ((g, r1, k1) : Pkgtup) ≠ (g, r2, k2) := by
    intro hc
    exact h (congrArg Prod.snd hc)
  simp [diffPackagelist, diff_list, memberFacts, alookup, listSetEq, hne, Ne.symm hne, pySort]

/-- C3 witness: Scenario C of the spec — `vim` in `g1` with
`requires=null,type=mandatory` in source and `requires=null,type=default`
in target. -/
theorem c3_qualifier_change_is_remove_plus_add_witness :
    ((none, some "mandatory") : Option String × Option String) ≠ (none, some "default")
    ∧ diffPackagelist [(some "vim", [("g1", none, some "mandatory")])]
        [(some "vim", [("g1", none, some "default")])]
      = [(some "vim",
          [MemberFact.new [("g1", none, some "default")], MemberFact.removed ["g1"]])] :=
  ⟨by decide, c3_qualifier_change_is_remove_plus_add (some "vim") "g1" none (some "mandatory")
    none (some "default") (by decide)⟩

theorem alookup_filterMap_none {κ β η : Type} [DecidableEq κ] {l : List (κ × β)}
    {f : κ × β → Option (κ × η)} {k : κ}
    (hf : ∀ p ∈ l, ∀ q, f p = some q → q.1 = p.1)
    (hk : ∀ p ∈ l, p.1 = k → f p = none) :
    alookup (l.filterMap f) k = none := by
  rw [alookup_eq_none]
  intro hmem
  obtain ⟨q, hq, hfst⟩ := List.mem_map.mp hmem
  obtain ⟨p, hp, hsome⟩ := List.mem_filterMap.mp hq
  have h1 : q.1 = p.1 := hf p hp q hsome
  have h2 : f p = none := hk p hp (h1 ▸ hfst)
  rw [h2] at hsome
  exact Option.noConfusion hsome

theorem diff_comps_lookup_both {μ : Type} {source target : List (String × NodeData μ)}
    (attributes : List String) {nid : String} {sd td : NodeData μ}
    (hs : alookup source nid = some sd) (ht : alookup target nid = some td) :
    alookup (diff_comps source target attributes) nid
      = some [EntityFact.attrs (attrDiff attributes sd td),
              textFact "names" sd.names td.names,
              textFact "descriptions" sd.descriptions td.descriptions] := by
  unfold diff_comps
  rw [alookup_append_right]
  · rw [alookup_map_snd (entityRecord target attributes) source nid, hs]
    unfold entityRecord
    rw [ht]
    rfl
  · apply alookup_filterMap_none
    · intro p hp q hq
      by_cases hc : (alookup source p.1).isNone
      · rw [if_pos hc] at hq
        obtain rfl := (Option.some.injEq ..).mp hq.symm
        rfl
      · rw [if_neg hc] at hq
        exact Option.noConfusion hq
    · intro p hp hpk
      rw [hpk]
      simp [hs]

theorem attrDiff_alookup {μ : Type} (attributes : List String) (sd td : NodeData μ)
    (a : String) :
    alookup (attrDiff attributes sd td) a
      = if a ∈ attributes ∧ getAttr sd a ≠ getAttr td a
        then some (getAttr td a) else none := by
  induction attributes with
  | nil => simp [attrDiff, alookup]
  | cons b rest ih =>
    unfold attrDiff at ih ⊢
    rw [List.filterMap_cons]
    by_cases hb : getAttr sd b ≠ getAttr td b
    · rw [if_pos hb]
      by_cases hab : b = a
      · subst hab
        simp [alookup, hb]
      · simp only [alookup, if_neg hab, ih]
        by_cases hmem : a ∈ rest ∧ getAttr sd a ≠ getAttr td a
        · rw [if_pos hmem, if_pos ⟨List.mem_cons_of_mem b hmem.1, hmem.2⟩]
        · rw [if_neg hmem]
          rw [if_neg]
          intro hc
          rcases List.mem_cons.mp hc.1 with h0 | h0
          · exact hab h0.symm
          · exact hmem ⟨h0, hc.2⟩
    · rw [if_neg hb]
      push_neg at hb
      rw [ih]
      by_cases hab : a = b
      · subst hab
        rw [if_neg, if_neg]
        · intro hc
          exact hc.2 hb
        · intro hc
          exact hc.2 hb
      · by_cases hmem : a ∈ rest ∧ getAttr sd a ≠ getAttr td a
        · rw [if_pos hmem, if_pos ⟨List.mem_cons_of_mem b hmem.1, hmem.2⟩]
        · rw [if_neg hmem, if_neg]
          intro hc
          rcases List.mem_cons.mp hc.1 with h0 | h0
          · exact hab h0
          · exact hmem ⟨h0, hc.2⟩

/-- C6: for an entity id present in both catalogs the record starts with the
attribute-change map, and for every recognized attribute that map contains
`attribute -> target value` exactly when the source and target values (with
absence read as not set) differ — in particular an attribute set in source
and absent in target is mapped to `None`, meaning cleared. -/
theorem c6_attribute_changes {μ : Type} (source target : List (String × NodeData μ))
    (attributes : List String) (nid : String) (sd td : NodeData μ)
    (hs : alookup source nid = some sd) (ht : alookup target nid = some td) :
    ∃ nf df : EntityFact,
      alookup (diff_comps source target attributes) nid
        = some [EntityFact.attrs (attrDiff attributes sd td), nf, df]
      ∧ ∀ a : String,
          alookup (attrDiff attributes sd td) a
            = if a ∈ attributes ∧ getAttr sd a ≠ getAttr td a
              then some (getAttr td a) else none :=
  ⟨textFact "names" sd.names td.names, textFact "descriptions" sd.descriptions td.descriptions,
    diff_comps_lookup_both attributes hs ht, attrDiff_alookup attributes sd td⟩

/-- Scenario A source group: attribute element `default` with text `true`. -/
def groupDefaultTrue : NodeData Package :=
  { names := [], descriptions := [], attrs := [("default", some "true")], members := none }

/-- Scenario A target group: no recognized attribute elements. -/
def groupNoAttrs : NodeData Package :=
  { names := [], descriptions := [], attrs := [], members := none }

/-- The `Groups.ATTRS` allow-list of `diffcomps.py`. -/
abbrev groupATTRS : List String := ["default", "uservisible", "langonly"]

/-- C6 witness: Scenario A — `default="true"` in source, no `default` in
target, for entity `g1`. -/
theorem c6_attribute_changes_witness :
    (alookup [("g1", groupDefaultTrue)] "g1" = some groupDefaultTrue)
    ∧ (alookup [("g1", groupNoAttrs)] "g1" = some groupNoAttrs)
    ∧ (∃ nf df : EntityFact,
        alookup (diff_comps [("g1", groupDefaultTrue)] [("g1", groupNoAttrs)] groupATTRS) "g1"
          = some [EntityFact.attrs (attrDiff groupATTRS groupDefaultTrue groupNoAttrs), nf, df]
        ∧ ∀ a : String,
            alookup (attrDiff groupATTRS groupDefaultTrue groupNoAttrs) a
              = if a ∈ groupATTRS ∧ getAttr groupDefaultTrue a ≠ getAttr groupNoAttrs a
                then some (getAttr groupNoAttrs a) else none) :=
  ⟨by decide, by decide,
    c6_attribute_changes _ _ groupATTRS "g1" _ _ (by decide) (by decide)⟩

theorem attrDiff_self {μ : Type} (attributes : List String) (d : NodeData μ) :
    attrDiff attributes d d = [] := by
  unfold attrDiff
  rw [List.filterMap_eq_nil_iff]
  intro a ha
  simp

theorem diff_dicts_self (l : List (Option String × Option String))
    (h : (l.map Prod.fst).Nodup) : diff_dicts l l = ([], [], []) := by
  unfold diff_dicts
  simp only [Prod.mk.injEq]
  refine ⟨?_, ?_, ?_⟩
  · rw [List.filterMap_eq_nil_iff]
    intro kv hkv
    obtain ⟨v, hv⟩ := Option.isSome_iff_exists.mp
      (alookup_isSome_of_mem (show (kv.1, kv.2) ∈ l from hkv))
    simp [hv]
  · rw [List.filterMap_eq_nil_iff]
    intro kv hkv
    obtain ⟨v, hv⟩ := Option.isSome_iff_exists.mp
      (alookup_isSome_of_mem (show (kv.1, kv.2) ∈ l from hkv))
    simp [hv]
  · rw [List.filterMap_eq_nil_iff]
    intro kv hkv
    rw [alookup_of_mem_nodup h (show (kv.1, kv.2) ∈ l from hkv)]
    simp

/-- C7: diffing a catalog against itself yields a record for every id of the
catalog, each consisting of an empty attribute-change map and empty
`new`/`removed` language lists for both text fields, with no existence tag.
The hypotheses state the Python dict invariants: unique entity ids and
unique language tags per text field. -/
theorem c7_self_diff_is_trivial {μ : Type} (c : List (String × NodeData μ))
    (attributes : List String) (hnd : (c.map Prod.fst).Nodup)
    (hwf : ∀ p ∈ c, (p.2.names.map Prod.fst).Nodup ∧ (p.2.descriptions.map Prod.fst).Nodup) :
    diff_comps c c attributes
      = c.map (fun p => (p.1, [EntityFact.attrs [], EntityFact.textdiff "names" [] [],
          EntityFact.textdiff "descriptions" [] []])) := by
  unfold diff_comps
  have h1 : (c.filterMap fun it =>
      if (alookup c it.1).isNone then some (it.1, [EntityFact.new]) else none) = [] := by
    rw [List.filterMap_eq_nil_iff]
    intro p hp
    obtain ⟨v, hv⟩ := Option.isSome_iff_exists.mp
      (alookup_isSome_of_mem (show (p.1, p.2) ∈ c from hp))
    simp [hv]
  rw [h1, List.nil_append]
  apply List.map_congr_left
  intro p hp
  have hrec : entityRecord c attributes p.1 p.2
      = [EntityFact.attrs [], EntityFact.textdiff "names" [] [],
         EntityFact.textdiff "descriptions" [] []] := by
    unfold entityRecord
    rw [alookup_of_mem_nodup hnd (show (p.1, p.2) ∈ c from hp)]
    show [EntityFact.attrs (attrDiff attributes p.2 p.2),
      textFact "names" p.2.names p.2.names,
      textFact "descriptions" p.2.descriptions p.2.descriptions] = _
    rw [attrDiff_self]
    unfold textFact
    rw [diff_dicts_self _ (hwf p hp).1, diff_dicts_self _ (hwf p hp).2]
    rfl
  rw [hrec]

/-- C7 witness: a two-group catalog diffed against itself. -/
theorem c7_self_diff_is_trivial_witness :
    ((([("g1", groupDefaultTrue), ("g2", groupNoAttrs)]).map Prod.fst).Nodup)
    ∧ (∀ p ∈ [("g1", groupDefaultTrue), ("g2", groupNoAttrs)],
        (p.2.names.map Prod.fst).Nodup ∧ (p.2.descriptions.map Prod.fst).Nodup)
    ∧ diff_comps [("g1", groupDefaultTrue), ("g2", groupNoAttrs)]
        [("g1", groupDefaultTrue), ("g2", groupNoAttrs)] groupATTRS
      = ([("g1", groupDefaultTrue), ("g2", groupNoAttrs)]).map
          (fun p => (p.1, [EntityFact.attrs [], EntityFact.textdiff "names" [] [],
            EntityFact.textdiff "descriptions" [] []])) :=
  ⟨by decide, by decide,
    c7_self_diff_is_trivial [("g1", groupDefaultTrue), ("g2", groupNoAttrs)] groupATTRS
      (by decide) (by decide)⟩

/-- C4: a member key present in both reverse-index mappings with equal tuple
sets does not appear in the membership diff at all — no entry is created for
it, unlike the entity diff which emits a record for every id present in
both.  The `Nodup` hypothesis is the Python dict invariant on the source
mapping. -/
theorem c4_noop_member_is_absent {κ α β : Type} [DecidableEq κ] [DecidableEq α]
    (item0 : α → β) (lebA : α → α → Bool) (lebB : β → β → Bool)
    (source target : List (κ × List α)) (m : κ) (s t : List α)
    (hnd : (source.map Prod.fst).Nodup)
    (hs : alookup source m = some s) (ht : alookup target m = some t)
    (heq : listSetEq s t = true) :
    alookup (diff_list item0 lebA lebB source target) m = none := by
  unfold diff_list
  have h1 : alookup (target.filterMap (fun it =>
      if (alookup source it.1).isNone then
        some ((it.1, [MemberFact.new (pySort lebA it.2)]) : κ × List (MemberFact α β))
      else none)) m = none := by
    apply alookup_filterMap_none
    · intro p hp q hq
      by_cases hc : (alookup source p.1).isNone
      · rw [if_pos hc] at hq
        obtain rfl := (Option.some.injEq ..).mp hq.symm
        rfl
      · rw [if_neg hc] at hq
        exact Option.noConfusion hq
    · intro p hp hpk
      rw [hpk]
      simp [hs]
  rw [alookup_append_right h1]
  apply alookup_filterMap_none
  · intro p hp q hq
    by_cases hc : memberFacts item0 lebA lebB target p.1 p.2 = []
    · simp [hc] at hq
    · simp [hc] at hq
      rw [← hq]
  · intro p hp hpk
    have hlook : alookup source p.1 = some p.2 :=
      alookup_of_mem_nodup hnd (show (p.1, p.2) ∈ source from hp)
    rw [hpk, hs] at hlook
    have hps : p.2 = s := (Option.some.injEq ..).mp hlook.symm
    have hfacts : memberFacts item0 lebA lebB target p.1 p.2 = [] := by
      unfold memberFacts
      rw [hpk, ht, hps]
      simp [heq]
    simp [hfacts]

/-- C4 witness: Scenario D — category `c1` lists group `g1` in both source
and target, unchanged, so `g1` is absent from the grouplist membership diff. -/
theorem c4_noop_member_is_absent_witness :
    (([(some "g1", ["c1"])].map Prod.fst).Nodup : Prop)
    ∧ alookup [(some "g1", ["c1"])] (some "g1") = some ["c1"]
    ∧ listSetEq ["c1"] ["c1"] = true
    ∧ alookup (diff_list (fun s : String => s.take 1) strLeb strLeb
        [(some "g1", ["c1"])] [(some "g1", ["c1"])]) (some "g1") = none :=
  ⟨by decide, by decide, by decide,
    c4_noop_member_is_absent (fun s : String => s.take 1) strLeb strLeb
      [(some "g1", ["c1"])] [(some "g1", ["c1"])] (some "g1") ["c1"] ["c1"]
      (by decide) (by decide) (by decide) (by decide)⟩

theorem parseComps_ok_nodup {μ : Type} (ATTRS : List String) :
    ∀ (nodes : List (RawNode μ)) (acc c : List (String × NodeData μ)),
      (acc.map Prod.fst).Nodup → parseComps ATTRS acc nodes = Except.ok c →
      ((acc.map Prod.fst) ++ nodes.map RawNode.id).Nodup := by
  intro nodes
  induction nodes with
  | nil =>
    intro acc c hacc heq
    simpa using hacc
  | cons n rest ih =>
    intro acc c hacc heq
    unfold parseComps at heq
    cases hpn : parseNode ATTRS n with
    | error e =>
      simp only [hpn] at heq
      exact Except.noConfusion heq
    | ok d =>
      simp only [hpn] at heq
      by_cases hlk : (alookup acc n.id).isSome
      · rw [if_pos hlk] at heq
        exact Except.noConfusion heq
      · rw [if_neg hlk] at heq
        have hnotin : n.id ∉ acc.map Prod.fst := by
          rw [← alookup_eq_none]
          exact Option.not_isSome_iff_eq_none.mp hlk
        have hacc2 : ((acc ++ [(n.id, d)]).map Prod.fst).Nodup := by
          rw [List.map_append]
          exact List.Nodup.append hacc (List.nodup_singleton n.id)
            (by simpa using fun h => hnotin h)
        have hrec := ih (acc ++ [(n.id, d)]) c hacc2 heq
        rw [List.map_append] at hrec
        rw [List.append_assoc] at hrec
        simpa using hrec

theorem parseComps_ok_of_nodup {μ : Type} (ATTRS : List String) :
    ∀ (nodes : List (RawNode μ)) (acc : List (String × NodeData μ)),
      ((acc.map Prod.fst) ++ nodes.map RawNode.id).Nodup →
      (∀ n ∈ nodes, ∃ d, parseNode ATTRS n = Except.ok d) →
      ∃ c, parseComps ATTRS acc nodes = Except.ok c
        ∧ (∀ k v, alookup acc k = some v → alookup c k = some v)
        ∧ (∀ n ∈ nodes, ∀ d, parseNode ATTRS n = Except.ok d → alookup c n.id = some d) := by
  intro nodes
  induction nodes with
  | nil =>
    intro acc hnd hp
    exact ⟨acc, rfl, fun k v h => h, by simp⟩
  | cons n rest ih =>
    intro acc hnd hp
    obtain ⟨d, hd⟩ := hp n (List.mem_cons_self n rest)
    have hnotin : n.id ∉ acc.map Prod.fst := by
      rw [List.nodup_append] at hnd
      intro hmem
      exact hnd.2.2 hmem (by simp)
    have halk : alookup acc n.id = none := alookup_eq_none.mpr hnotin
    have hstep : parseComps ATTRS acc (n :: rest)
        = parseComps ATTRS (acc ++ [(n.id, d)]) rest := by
      conv_lhs => unfold parseComps
      simp [hd, halk]
    have hnd2 : (((acc ++ [(n.id, d)]).map Prod.fst) ++ rest.map RawNode.id).Nodup := by
      rw [List.map_append, List.append_assoc]
      simpa using hnd
    obtain ⟨c, hc, hpres, hrest⟩ := ih (acc ++ [(n.id, d)]) hnd2
      (fun m hm => hp m (List.mem_cons_of_mem n hm))
    refine ⟨c, by rw [hstep]; exact hc, ?_, ?_⟩
    · intro k v h
      exact hpres k v (alookup_append_left h)
    · intro m hm d0 hd0
      rcases List.mem_cons.mp hm with h0 | h0
      · subst h0
        have hdd : d0 = d := by
          rw [hd] at hd0
          exact ((Except.ok.injEq ..).mp hd0.symm)
        subst hdd
        apply hpres
        rw [alookup_append_right halk]
        simp [alookup]
      · exact hrest m h0 d0 hd0

/-- C9: if the same entity id occurs on two nodes of the same kind, catalog
construction fails with a fatal error and produces no catalog; if every id
is unique (and each node itself parses, i.e. has no duplicate language tag)
construction succeeds and the catalog maps each id to its parsed entity. -/
theorem c9_duplicate_id_fatal {μ : Type} (ATTRS : List String) (nodes : List (RawNode μ)) :
    (¬ (nodes.map RawNode.id).Nodup → ∃ e, parseComps ATTRS [] nodes = Except.error e)
    ∧ ((nodes.map RawNode.id).Nodup →
        (∀ n ∈ nodes, ∃ d, parseNode ATTRS n = Except.ok d) →
        ∃ c, parseComps ATTRS [] nodes = Except.ok c
          ∧ ∀ n ∈ nodes, ∀ d, parseNode ATTRS n = Except.ok d → alookup c n.id = some d) := by
  constructor
  · intro hdup
    cases heq : parseComps ATTRS [] nodes with
    | error e => exact ⟨e, rfl⟩
    | ok c =>
      have := parseComps_ok_nodup ATTRS nodes [] c (by simp) heq
      simp at this
      exact absurd this hdup
  · intro hnd hp
    obtain ⟨c, hc, _, hmem⟩ := parseComps_ok_of_nodup ATTRS nodes [] (by simpa using hnd) hp
    exact ⟨c, hc, hmem⟩

/-- A raw group node with id `g1`, one English name, a `default` element
and an empty packagelist. -/
def rawG1 : RawNode Package :=
  { id := "g1", names := [(some "en", some "Editors")], descriptions := [],
    attrEls := [("default", some "true")], memberlist := some [] }

/-- A second raw node that reuses id `g1`. -/
def rawG1dup : RawNode Package :=
  { id := "g1", names := [], descriptions := [], attrEls := [], memberlist := none }

/-- C9 witness: a two-node document repeating id `g1` fails; the singleton
document parses and maps `g1` to its data. -/
theorem c9_duplicate_id_fatal_witness :
    (∃ e, parseComps groupATTRS [] [rawG1, rawG1dup] = Except.error e)
    ∧ (∃ c, parseComps groupATTRS [] [rawG1] = Except.ok c
        ∧ ∀ n ∈ [rawG1], ∀ d, parseNode groupATTRS n = Except.ok d → alookup c n.id = some d) :=
  ⟨(c9_duplicate_id_fatal groupATTRS [rawG1, rawG1dup]).1 (by decide),
   (c9_duplicate_id_fatal groupATTRS [rawG1]).2 (by decide)
     (fun n hn => by
       rw [List.mem_singleton.mp hn]
       exact ⟨{ names := [(some "en", some "Editors")], descriptions := [],
                attrs := [("default", some "true")], members := some [] }, by decide⟩)⟩

/-- Sortedness of the lists inside one entity-diff fact: the language-tag
lists of a `names`/`descriptions` fact are ascending in the Python-2 order
on optional strings; the claim covers no other entity-fact lists. -/
def entityFactSorted : EntityFact → Prop
  | EntityFact.textdiff _ newKeys removedKeys =>
      newKeys.Sorted (fun a b => optStrLeb a b = true)
      ∧ removedKeys.Sorted (fun a b => optStrLeb a b = true)
  | _ => True

/-- Sortedness of the list inside one membership-diff fact, with respect to
the comparators of the instantiation. -/
def memberFactSorted {α β : Type} (lebA : α → α → Bool) (lebB : β → β → Bool) :
    MemberFact α β → Prop
  | MemberFact.new l => l.Sorted (fun a b => lebA a b = true)
  | MemberFact.removed l => l.Sorted (fun a b => lebB a b = true)

theorem textFact_sorted (tag : String) (s t : List (Option String × Option String)) :
    entityFactSorted (textFact tag s t) := by
  unfold textFact entityFactSorted
  exact ⟨pySort_sorted optStrLeb optStrLeb_total (fun h1 h2 => optStrLeb_trans h1 h2) _,
         pySort_sorted optStrLeb optStrLeb_total (fun h1 h2 => optStrLeb_trans h1 h2) _⟩

theorem entityRecord_sorted {μ : Type} (target : List (String × NodeData μ))
    (attributes : List String) (nid : String) (sd : NodeData μ) :
    ∀ f ∈ entityRecord target attributes nid sd, entityFactSorted f := by
  unfold entityRecord
  cases alookup target nid with
  | none =>
    intro f hf
    rw [List.mem_singleton.mp hf]
    trivial
  | some td =>
    intro f hf
    rcases List.mem_cons.mp hf with h0 | h0
    · rw [h0]; trivial
    rcases List.mem_cons.mp h0 with h1 | h1
    · rw [h1]; exact textFact_sorted _ _ _
    rcases List.mem_cons.mp h1 with h2 | h2
    · rw [h2]; exact textFact_sorted _ _ _
    · simp at h2

theorem memberFacts_sorted {κ α β : Type} [DecidableEq κ] [DecidableEq α]
    (item0 : α → β) (lebA : α → α → Bool) (lebB : β → β → Bool)
    (htotA : ∀ a b, lebA a b = true ∨ lebA b a = true)
    (htrA : ∀ {a b c}, lebA a b = true → lebA b c = true → lebA a c = true)
    (htotB : ∀ a b, lebB a b = true ∨ lebB b a = true)
    (htrB : ∀ {a b c}, lebB a b = true → lebB b c = true → lebB a c = true)
    (target : List (κ × List α)) (item : κ) (groups : List α) :
    ∀ f ∈ memberFacts item0 lebA lebB target item groups, memberFactSorted lebA lebB f := by
  intro f hf
  unfold memberFacts at hf
  cases halk : alookup target item with
  | none =>
    simp only [halk] at hf
    rw [List.mem_singleton.mp hf]
    exact pySort_sorted lebB htotB htrB _
  | some target_groups =>
    simp only [halk] at hf
    by_cases heq : listSetEq groups target_groups
    · simp [heq] at hf
    · rw [if_neg heq] at hf
      rcases List.mem_append.mp hf with h0 | h0
      · by_cases he : (target_groups.filter (fun x => decide (x ∉ groups))).isEmpty
        · rw [if_pos he] at h0
          simp at h0
        · rw [if_neg he] at h0
          rw [List.mem_singleton.mp h0]
          exact pySort_sorted lebA htotA htrA _
      · by_cases he : (groups.filter (fun x => decide (x ∉ target_groups))).isEmpty
        · rw [if_pos he] at h0
          simp at h0
        · rw [if_neg he] at h0
          rw [List.mem_singleton.mp h0]
          exact pySort_sorted lebB htotB htrB _

theorem diff_list_sorted {κ α β : Type} [DecidableEq κ] [DecidableEq α]
    (item0 : α → β) (lebA : α → α → Bool) (lebB : β → β → Bool)
    (htotA : ∀ a b, lebA a b = true ∨ lebA b a = true)
    (htrA : ∀ {a b c}, lebA a b = true → lebA b c = true → lebA a c = true)
    (htotB : ∀ a b, lebB a b = true ∨ lebB b a = true)
    (htrB : ∀ {a b c}, lebB a b = true → lebB b c = true → lebB a c = true)
    (source target : List (κ × List α)) :
    ∀ p ∈ diff_list item0 lebA lebB source target, ∀ f ∈ p.2,
      memberFactSorted lebA lebB f := by
  intro p hp f hf
  unfold diff_list at hp
  rcases List.mem_append.mp hp with h0 | h0
  · obtain ⟨it, hit, hsome⟩ := List.mem_filterMap.mp h0
    by_cases hc : (alookup source it.1).isNone
    · rw [if_pos hc] at hsome
      obtain rfl := (Option.some.injEq ..).mp hsome.symm
      rw [List.mem_singleton.mp hf]
      exact pySort_sorted lebA htotA htrA _
    · rw [if_neg hc] at hsome
      exact Option.noConfusion hsome
  · obtain ⟨it, hit, hsome⟩ := List.mem_filterMap.mp h0
    by_cases hc : (memberFacts item0 lebA lebB target it.1 it.2).isEmpty
    · simp [hc] at hsome
    · simp [hc] at hsome
      rw [← hsome] at hf
      exact memberFacts_sorted item0 lebA lebB htotA htrA htotB htrB target it.1 it.2 f hf

/-- C8: every list emitted by the entity diff and by both membership diffs —
language-tag lists, added-tuple lists and removed-primary-key lists — is
sorted ascending in the corresponding Python-2 lexicographic order. -/
theorem c8_all_lists_sorted :
    (∀ (μ : Type) (source target : List (String × NodeData μ)) (attributes : List String),
      ∀ p ∈ diff_comps source target attributes, ∀ f ∈ p.2, entityFactSorted f)
    ∧ (∀ source target : List (Option String × List Pkgtup),
        ∀ p ∈ diffPackagelist source target, ∀ f ∈ p.2,
          memberFactSorted pkgtupLeb strLeb f)
    ∧ (∀ source target : List (Option String × List String),
        ∀ p ∈ diffGrouplist source target, ∀ f ∈ p.2,
          memberFactSorted strLeb strLeb f) := by
  refine ⟨?_, ?_, ?_⟩
  · intro μ source target attributes p hp f hf
    unfold diff_comps at hp
    rcases List.mem_append.mp hp with h0 | h0
    · obtain ⟨it, hit, hsome⟩ := List.mem_filterMap.mp h0
      by_cases hc : (alookup source it.1).isNone
      · rw [if_pos hc] at hsome
        obtain rfl := (Option.some.injEq ..).mp hsome.symm
        rw [List.mem_singleton.mp hf]
        trivial
      · rw [if_neg hc] at hsome
        exact Option.noConfusion hsome
    · obtain ⟨it, hit, heq⟩ := List.mem_map.mp h0
      rw [← heq] at hf
      exact entityRecord_sorted target attributes it.1 it.2 f hf
  · intro source target
    unfold diffPackagelist
    exact diff_list_sorted (fun t => t.1) pkgtupLeb strLeb pkgtupLeb_total
      (fun h1 h2 => pkgtupLeb_trans h1 h2) strLeb_total
      (fun h1 h2 => strLeb_trans h1 h2) source target
  · intro source target
    unfold diffGrouplist
    exact diff_list_sorted (fun s => s.take 1) strLeb strLeb strLeb_total
      (fun h1 h2 => strLeb_trans h1 h2) strLeb_total
      (fun h1 h2 => strLeb_trans h1 h2) source target

/-- C8 witness: one fact from each of the three diff outputs at concrete
inputs. -/
theorem c8_all_lists_sorted_witness :
    entityFactSorted (EntityFact.textdiff "names" [] [])
    ∧ memberFactSorted pkgtupLeb strLeb (MemberFact.removed ["g1", "g1"])
    ∧ memberFactSorted strLeb strLeb (MemberFact.removed ["c"]) :=
  ⟨c8_all_lists_sorted.1 Package [("g1", groupDefaultTrue)] [("g1", groupNoAttrs)] groupATTRS
      ("g1", [EntityFact.attrs [("default", none)], EntityFact.textdiff "names" [] [],
        EntityFact.textdiff "descriptions" [] []]) (by decide)
      (EntityFact.textdiff "names" [] []) (by decide),
   c8_all_lists_sorted.2.1 [(some "vim", [("g1", none, some "mandatory"), ("g1", none, some "default")])] []
      (some "vim", [MemberFact.removed ["g1", "g1"]]) (by decide)
      (MemberFact.removed ["g1", "g1"]) (by decide),
   c8_all_lists_sorted.2.2 [(some "g1", ["cat1"])] [] (some "g1", [MemberFact.removed ["c"]]) (by decide)
      (MemberFact.removed ["c"]) (by decide)⟩

theorem filterMap_if_some {α β : Type} (p : α → Bool) (f : α → β) (l : List α) :
    l.filterMap (fun x => if p x then some (f x) else none) = (l.filter p).map f := by
  induction l with
  | nil => rfl
  | cons x xs ih =>
    by_cases h : p x <;> simp [List.filterMap_cons, List.filter_cons, h, ih]

theorem map_fst_filter_key {κ β : Type} (q : κ → Bool) (l : List (κ × β)) :
    (l.filter (fun kv => q kv.1)).map Prod.fst = (l.map Prod.fst).filter q := by
  induction l with
  | nil => rfl
  | cons x xs ih =>
    by_cases h : q x.1 <;> simp [List.filter_cons, h, ih]

/-- Modelled from the spec sentence for the text-field diff: the `new` keys
are the added keys (present only in target) together with the changed keys
(present in both with different text) — equivalently, the target keys whose
looked-up source value (absent reading as not set) differs from the target
value.  Defined over the target key list, independently of how `diff_dicts`
computes it. -/
def specNewKeys (s t : List (Option String × Option String)) : List (Option String) :=
  (t.map Prod.fst).filter (fun k => decide (alookup s k ≠ alookup t k))

/-- Modelled from the spec sentence: the `removed` keys are the source keys
no longer present in target. -/
def specRemovedKeys (s t : List (Option String × Option String)) : List (Option String) :=
  (s.map Prod.fst).filter (fun k => (alookup t k).isNone)

theorem diff_dicts_removals_spec (s t : List (Option String × Option String)) :
    (diff_dicts s t).2.1 = specRemovedKeys s t := by
  show s.filterMap (fun kv => if (alookup t kv.1).isNone then some kv.1 else none)
    = (s.map Prod.fst).filter (fun k => (alookup t k).isNone)
  rw [← map_fst_filter_key]
  exact filterMap_if_some (fun kv => (alookup t kv.1).isNone) Prod.fst s

theorem mem_additions_iff {s t : List (Option String × Option String)}
    {x : Option String} :
    (x ∈ ((diff_dicts s t).1.map Prod.fst))
      ↔ (x ∈ t.map Prod.fst ∧ alookup s x = none) := by
  unfold diff_dicts
  constructor
  · intro hx
    obtain ⟨kv, hkv, hfst⟩ := List.mem_map.mp hx
    obtain ⟨kv0, hkv0, hsome⟩ := List.mem_filterMap.mp hkv
    by_cases hc : (alookup s kv0.1).isNone
    · rw [if_pos hc] at hsome
      obtain rfl := (Option.some.injEq ..).mp hsome.symm
      subst hfst
      exact ⟨List.mem_map_of_mem Prod.fst hkv0, Option.isNone_iff_eq_none.mp hc⟩
    · rw [if_neg hc] at hsome
      exact Option.noConfusion hsome
  · intro ⟨hx, hnone⟩
    obtain ⟨kv, hkv, hfst⟩ := List.mem_map.mp hx
    refine List.mem_map.mpr ⟨kv, List.mem_filterMap.mpr ⟨kv, hkv, ?_⟩, hfst⟩
    rw [if_pos]
    rw [hfst]
    simp [hnone]

/-- The changed-pair test of `diff_dicts`, as a boolean on one source pair:
the key exists in target and the values differ. -/
def chgb (t : List (Option String × Option String)) (kv : Option String × Option String) :
    Bool :=
  match alookup t kv.1 with
  | none => false
  | some tv => decide (kv.2 ≠ tv)

theorem diff_dicts_additions_keys (s t : List (Option String × Option String)) :
    (diff_dicts s t).1.map Prod.fst
      = (t.map Prod.fst).filter (fun k => (alookup s k).isNone) := by
  show (t.filterMap (fun kv =>
      if (alookup s kv.1).isNone then some kv else none)).map Prod.fst = _
  rw [List.map_filterMap]
  rw [← map_fst_filter_key]
  rw [← filterMap_if_some (fun kv => (alookup s kv.1).isNone) Prod.fst t]
  apply List.filterMap_congr
  intro kv _
  by_cases h : (alookup s kv.1).isNone <;> simp [h]

theorem diff_dicts_changes_keys (s t : List (Option String × Option String)) :
    (diff_dicts s t).2.2.map (fun c => c.1) = (s.filter (chgb t)).map Prod.fst := by
  show (s.filterMap (fun kv =>
      match alookup t kv.1 with
      | none => none
      | some tv => if kv.2 ≠ tv then some (kv.1, kv.2, tv) else none)).map
        (fun c => c.1) = _
  rw [List.map_filterMap]
  rw [← filterMap_if_some (chgb t) Prod.fst s]
  apply List.filterMap_congr
  intro kv _
  unfold chgb
  cases halk : alookup t kv.1 with
  | none => simp
  | some tv =>
    by_cases h : kv.2 = tv <;> simp [h]

/-- The text-field fact emitted for one tag equals the spec-side description:
`new` is the sorted union of added and changed keys, `removed` the sorted
keys present only in source.  Requires the Python dict invariant (unique
keys) on both text maps. -/
theorem textFact_spec (tag : String) (s t : List (Option String × Option String))
    (hsn : (s.map Prod.fst).Nodup) (htn : (t.map Prod.fst).Nodup) :
    textFact tag s t
      = EntityFact.textdiff tag (pySort optStrLeb (specNewKeys s t))
          (pySort optStrLeb (specRemovedKeys s t)) := by
  unfold textFact
  show EntityFact.textdiff tag
      (pySort optStrLeb ((diff_dicts s t).1.map Prod.fst
        ++ (diff_dicts s t).2.2.map (fun c => c.1)))
      (pySort optStrLeb (diff_dicts s t).2.1) = _
  rw [diff_dicts_removals_spec]
  have hndA : ((diff_dicts s t).1.map Prod.fst
      ++ (diff_dicts s t).2.2.map (fun c => c.1)).Nodup := by
    rw [diff_dicts_additions_keys, diff_dicts_changes_keys, List.nodup_append]
    refine ⟨htn.filter _, ?_, ?_⟩
    · exact List.Nodup.sublist
        ((List.filter_sublist s : (s.filter (chgb t)).Sublist s).map Prod.fst) hsn
    · intro x hx hx2
      have h1 : alookup s x = none :=
        Option.isNone_iff_eq_none.mp (List.mem_filter.mp hx).2
      obtain ⟨kv, hkv, hfst⟩ := List.mem_map.mp hx2
      have : kv.1 ∈ s.map Prod.fst :=
        List.mem_map_of_mem Prod.fst (List.mem_filter.mp hkv).1
      rw [hfst] at this
      exact (alookup_eq_none.mp h1) this
  have hndB : (specNewKeys s t).Nodup := htn.filter _
  have hperm : ((diff_dicts s t).1.map Prod.fst
      ++ (diff_dicts s t).2.2.map (fun c => c.1)).Perm (specNewKeys s t) := by
    rw [List.perm_ext_iff_of_nodup hndA hndB]
    intro x
    rw [List.mem_append, diff_dicts_additions_keys, diff_dicts_changes_keys]
    unfold specNewKeys
    constructor
    · intro hx
      rcases hx with hx | hx
      · have h1 := (List.mem_filter.mp hx).2
        have h2 := (List.mem_filter.mp hx).1
        have h3 : alookup s x = none := Option.isNone_iff_eq_none.mp h1
        refine List.mem_filter.mpr ⟨h2, ?_⟩
        have h4 : (alookup t x).isSome := by
          obtain ⟨kv, hkv, hfst⟩ := List.mem_map.mp h2
          exact hfst ▸ alookup_isSome_of_mem (show (kv.1, kv.2) ∈ t from hkv)
        obtain ⟨tv, htv⟩ := Option.isSome_iff_exists.mp h4
        simp [h3, htv]
      · obtain ⟨kv, hkv, hfst⟩ := List.mem_map.mp hx
        have hmem := (List.mem_filter.mp hkv).1
        have hchg := (List.mem_filter.mp hkv).2
        unfold chgb at hchg
        cases halk : alookup t kv.1 with
        | none => rw [halk] at hchg; exact absurd hchg (by simp)
        | some tv =>
          rw [halk] at hchg
          have hne : kv.2 ≠ tv := of_decide_eq_true hchg
          have hsv : alookup s kv.1 = some kv.2 :=
            alookup_of_mem_nodup hsn (show (kv.1, kv.2) ∈ s from hmem)
          have hxt : x ∈ t.map Prod.fst := by
            rw [← hfst]
            have hmt : (kv.1, tv) ∈ t := alookup_mem halk
            simpa using List.mem_map_of_mem Prod.fst hmt
          refine List.mem_filter.mpr ⟨hxt, ?_⟩
          rw [← hfst]
          simp [hsv, halk, hne]
    · intro hx
      have hxt := (List.mem_filter.mp hx).1
      have hne : alookup s x ≠ alookup t x := of_decide_eq_true (List.mem_filter.mp hx).2
      have h4 : (alookup t x).isSome := by
        obtain ⟨kv, hkv, hfst⟩ := List.mem_map.mp hxt
        exact hfst ▸ alookup_isSome_of_mem (show (kv.1, kv.2) ∈ t from hkv)
      obtain ⟨tv, htv⟩ := Option.isSome_iff_exists.mp h4
      cases hsx : alookup s x with
      | none =>
        left
        exact List.mem_filter.mpr ⟨hxt, by simp [hsx]⟩
      | some sv =>
        right
        have hkv : (x, sv) ∈ s := alookup_mem hsx
        refine List.mem_map.mpr ⟨(x, sv), List.mem_filter.mpr ⟨hkv, ?_⟩, rfl⟩
        unfold chgb
        rw [htv]
        simp only [decide_eq_true_eq]
        intro hc
        rw [hsx, htv] at hne
        exact hne (by rw [hc])
  rw [pySort_congr optStrLeb_total (fun h1 h2 => optStrLeb_trans h1 h2)
    (fun h1 h2 => optStrLeb_antisymm h1 h2) hperm]

/-- C5: for an entity id present in both catalogs, each text-map field
contributes `new = sorted(added and changed keys)` and `removed =
sorted(keys present only in source)`; a changed text appears only as its
language tag in `new` — the output carries no before/after text pair. -/
theorem c5_text_map_diff {μ : Type} (source target : List (String × NodeData μ))
    (attributes : List String) (nid : String) (sd td : NodeData μ)
    (hs : alookup source nid = some sd) (ht : alookup target nid = some td)
    (hsn : (sd.names.map Prod.fst).Nodup) (htn : (td.names.map Prod.fst).Nodup)
    (hsd : (sd.descriptions.map Prod.fst).Nodup)
    (htd : (td.descriptions.map Prod.fst).Nodup) :
    ∃ am : List (String × Option String),
      alookup (diff_comps source target attributes) nid
        = some [EntityFact.attrs am,
            EntityFact.textdiff "names"
              (pySort optStrLeb (specNewKeys sd.names td.names))
              (pySort optStrLeb (specRemovedKeys sd.names td.names)),
            EntityFact.textdiff "descriptions"
              (pySort optStrLeb (specNewKeys sd.descriptions td.descriptions))
              (pySort optStrLeb (specRemovedKeys sd.descriptions td.descriptions))] :=
  ⟨attrDiff attributes sd td, by
    rw [diff_comps_lookup_both attributes hs ht, textFact_spec _ _ _ hsn htn,
      textFact_spec _ _ _ hsd htd]⟩

/-- A source group for the C5 witness: English and German names and an
untagged name. -/
def namesSrcNode : NodeData Package :=
  { names := [(some "en", some "Hello"), (some "de", some "Hallo"), (none, some "x")],
    descriptions := [], attrs := [], members := none }

/-- A target group for the C5 witness: the English text changed, German
gone, French added, untagged unchanged. -/
def namesTgtNode : NodeData Package :=
  { names := [(some "en", some "Hi"), (some "fr", some "Salut"), (none, some "x")],
    descriptions := [], attrs := [], members := none }

/-- C5 witness: one changed, one removed and one added language tag. -/
theorem c5_text_map_diff_witness :
    (alookup [("g1", namesSrcNode)] "g1" = some namesSrcNode)
    ∧ (alookup [("g1", namesTgtNode)] "g1" = some namesTgtNode)
    ∧ (∃ am : List (String × Option String),
        alookup (diff_comps [("g1", namesSrcNode)] [("g1", namesTgtNode)] groupATTRS) "g1"
          = some [EntityFact.attrs am,
              EntityFact.textdiff "names"
                (pySort optStrLeb (specNewKeys namesSrcNode.names namesTgtNode.names))
                (pySort optStrLeb (specRemovedKeys namesSrcNode.names namesTgtNode.names)),
              EntityFact.textdiff "descriptions"
                (pySort optStrLeb
                  (specNewKeys namesSrcNode.descriptions namesTgtNode.descriptions))
                (pySort optStrLeb
                  (specRemovedKeys namesSrcNode.descriptions namesTgtNode.descriptions))]) :=
  ⟨by decide, by decide,
    c5_text_map_diff [("g1", namesSrcNode)] [("g1", namesTgtNode)] groupATTRS "g1"
      namesSrcNode namesTgtNode (by decide) (by decide) (by decide) (by decide)
      (by decide) (by decide)⟩

